import Mathlib

set_option linter.unusedVariables false
set_option synthInstance.maxSize 2000

/-!
Verification development for the job-application tracker (tracker.py).

The program is a command-line CRUD tool over a single sqlite table
named applications.  This file gives a shallow embedding of its record
store: the table state is a list of rows plus the AUTOINCREMENT
counter, and each store operation (add, list, update, stats, export, import,
delete) is a Lean function translated from the corresponding
Python function.  Connection handling is modelled by a closed flag in
each operation result, set exactly on the control-flow paths on which
the Python code reaches conn.close().
-/

/-- One row of the applications table.  The sqlite schema declares the
columns company and role as TEXT NOT NULL and the remaining text
columns as nullable TEXT, so every text column is modelled as
Option String with none standing for NULL. -/
structure Row where
  id : Nat
  company : Option String
  role : Option String
  location : Option String
  date_applied : Option String
  status : Option String
  source : Option String
  salary : Option String
  notes : Option String
  last_updated : Option String
deriving DecidableEq

/-- State of the store: the applications table content plus the sqlite
AUTOINCREMENT counter.  With INTEGER PRIMARY KEY AUTOINCREMENT the next
assigned id is strictly larger than every id ever assigned, and the
counter is never decreased, not even by DELETE. -/
structure DB where
  rows : List Row
  nextId : Nat
deriving DecidableEq

/-- Fresh database right after init_db: empty table, first id is 1. -/
def emptyDB : DB := ⟨[], 1⟩

/-- Arguments reaching add_application: argparse has already supplied
the defaults (empty string for the optional text flags, the string
applied for status); company and role are required flags, so they are
present, but nothing stops them from being empty strings. -/
structure AddArgs where
  company : String
  role : String
  location : String
  date : String
  status : String
  source : String
  salary : String
  notes : String
deriving DecidableEq

/-- Default value argparse installs for the status flag of add. -/
def defaultStatus : String := "applied"

/-- Row inserted by add_application: every bound parameter is a Python
string, hence a non-NULL TEXT value; last_updated is the current time. -/
def newRowOfArgs (a : AddArgs) (now : String) (n : Nat) : Row :=
  ⟨n, some a.company, some a.role, some a.location, some a.date,
   some a.status, some a.source, some a.salary, some a.notes, some now⟩

structure AddOut where
  db : DB
  closed : Bool
deriving DecidableEq

/-- Embedding of add_application: open connection, INSERT the row with
all nine text parameters bound, commit, close.  There is no validation
of any kind; the straight-line code always reaches conn.close(). -/
def addApplication (a : AddArgs) (now : String) (db : DB) : AddOut :=
  ⟨⟨db.rows ++ [newRowOfArgs a now db.nextId], db.nextId + 1⟩, true⟩

/-- Python truthiness of an Optional[str]: None and the empty string
are falsy, every other string is truthy. -/
def truthy : Option String → Bool
  | none => false
  | some s => !(s == "")

/-- Fields of an update invocation: each mutable column flag is either
absent (argparse default None) or a string. The date flag maps to the
date_applied column. -/
structure UpdateFields where
  company : Option String
  role : Option String
  location : Option String
  date : Option String
  status : Option String
  source : Option String
  salary : Option String
  notes : Option String
deriving DecidableEq

/-- Test mirroring the updates-dict construction of update_application:
at least one supplied field is truthy, i.e. the updates dict is
nonempty. -/
def hasUpdates (f : UpdateFields) : Bool :=
  truthy f.company || truthy f.role || truthy f.location || truthy f.date ||
  truthy f.status || truthy f.source || truthy f.salary || truthy f.notes

/-- Effect of the UPDATE statement of update_application on one matching
row: each truthy field overwrites its column (date into date_applied)
and last_updated is set to the current time. -/
def applyUpd (f : UpdateFields) (now : String) (r : Row) : Row :=
  { r with
    company := if truthy f.company then f.company else r.company
    role := if truthy f.role then f.role else r.role
    location := if truthy f.location then f.location else r.location
    date_applied := if truthy f.date then f.date else r.date_applied
    status := if truthy f.status then f.status else r.status
    source := if truthy f.source then f.source else r.source
    salary := if truthy f.salary then f.salary else r.salary
    notes := if truthy f.notes then f.notes else r.notes
    last_updated := some now }

inductive UpdResult where
  | notFound
  | noChanges
  | updated
deriving DecidableEq

structure UpdOut where
  res : UpdResult
  db : DB
  closed : Bool
deriving DecidableEq

/-- Embedding of update_application: SELECT the row by id (fetchone);
if absent, print and return without closing; build the updates dict
from the truthy fields; if it is empty, print and return without
closing; otherwise run the UPDATE on every row with that id, commit and
close. -/
def updateApplication (id : Nat) (f : UpdateFields) (now : String) (db : DB) : UpdOut :=
  match db.rows.find? (fun r => r.id == id) with
  | none => ⟨UpdResult.notFound, db, false⟩
  | some _ =>
    if hasUpdates f then
      ⟨UpdResult.updated,
       ⟨db.rows.map (fun r => if r.id == id then applyUpd f now r else r), db.nextId⟩,
       true⟩
    else ⟨UpdResult.noChanges, db, false⟩

/-- Case folding used by sqlite LIKE: ASCII letters only, which is what
Char.toLower performs; percent and underscore are untouched by it. -/
def foldChars (s : String) : List Char := s.data.map Char.toLower

/-- Matcher for the LIKE operator over case-folded characters: percent
matches any sequence of characters (a pattern starting with percent
matches whenever the rest of the pattern matches some suffix of the
text), underscore matches exactly one character, every other pattern
character matches itself, and the whole text must be consumed. -/
def likeMatch : List Char → List Char → Bool
  | [], s => s.isEmpty
  | c :: p, s =>
    if c = '%' then s.tails.any (fun t => likeMatch p t)
    else
      match s with
      | [] => false
      | d :: t => (if c = '_' then true else c == d) && likeMatch p t

/-- Test for the company filter of list_applications: the stored value
against LIKE with the user filter wrapped in percent signs, both sides
case-folded as LIKE folds them.  Percent and underscore inside the
user-supplied filter keep their wildcard meaning. -/
def companyLike (cs c : String) : Bool :=
  likeMatch ('%' :: (foldChars c ++ ['%'])) (foldChars cs)

/-- Literal case-insensitive substring containment: the reading the
spec gives of the company filter. -/
def containsCI (hay pat : String) : Bool :=
  decide (foldChars pat <:+: foldChars hay)

/-- Row filter of list_applications.  A filter flag that is None or
empty is falsy in Python, so no WHERE clause is added for it.  An SQL
comparison or LIKE against a NULL column is not satisfied. -/
def rowMatches (st co : Option String) (r : Row) : Bool :=
  (match st with
   | none => true
   | some s => if s == "" then true else r.status == some s) &&
  (match co with
   | none => true
   | some c =>
     if c == "" then true else
       match r.company with
       | some cs => companyLike cs c
       | none => false)

/-- Comparison realising ORDER BY date_applied DESC: the row placed
first has the larger key, where sqlite orders NULL below every text
value. -/
def sqlGE (a b : Option String) : Bool :=
  match a, b with
  | _, none => true
  | none, some _ => false
  | some sa, some sb => decide (sb ≤ sa)

/-- Row order of the ORDER BY clause, as a relation on rows. -/
def rowLE (a b : Row) : Prop := sqlGE a.date_applied b.date_applied = true

instance : DecidableRel rowLE := fun a b => by
  unfold rowLE; exact instDecidableEqBool _ _

instance : IsTotal Row rowLE := by
  constructor
  intro a b
  unfold rowLE sqlGE
  cases a.date_applied with
  | none => cases b.date_applied with
    | none => left; rfl
    | some sb => right; rfl
  | some sa => cases b.date_applied with
    | none => left; rfl
    | some sb =>
      rcases le_total sa sb with h | h
      · right; simpa using h
      · left; simpa using h

instance : IsTrans Row rowLE := by
  constructor
  intro a b c hab hbc
  unfold rowLE sqlGE at hab hbc ⊢
  cases ha : a.date_applied with
  | none => cases hb : b.date_applied with
    | none => cases hc : c.date_applied with
      | none => rfl
      | some sc => rw [ha, hb] at hab; rw [hb, hc] at hbc; simp at hbc
    | some sb => rw [ha, hb] at hab; simp at hab
  | some sa => cases hc : c.date_applied with
    | none => rfl
    | some sc =>
      cases hb : b.date_applied with
      | none => rw [hb, hc] at hbc; simp at hbc
      | some sb =>
        rw [ha, hb] at hab; rw [hb, hc] at hbc
        simp only [decide_eq_true_eq] at hab hbc ⊢
        exact le_trans hbc hab

structure ListOut where
  rows : List Row
  closed : Bool
deriving DecidableEq

/-- Embedding of list_applications: SELECT with the WHERE clauses built
from the truthy filters and ORDER BY date_applied DESC, then close.
The sort is modelled by insertion sort with respect to the ORDER BY
comparison. -/
def listApplications (st co : Option String) (db : DB) : ListOut :=
  ⟨List.insertionSort rowLE (db.rows.filter (rowMatches st co)), true⟩

structure StatsOut where
  groups : List (Option String × Nat)
  closed : Bool
deriving DecidableEq

/-- Embedding of stats: SELECT status, COUNT grouped by status, then
close.  Group order is immaterial to the claims. -/
def statsOp (db : DB) : StatsOut :=
  ⟨((db.rows.map (fun r => r.status)).dedup).map
     (fun s => (s, (db.rows.filter (fun r => r.status == s)).length)), true⟩

/-- Rows as ordered by the SELECT of export_csv (same ORDER BY as
list with no filters). -/
def exportRows (db : DB) : List Row := List.insertionSort rowLE db.rows

/-- Header row written by csv.writer from the cursor description. -/
def headerRow : List String :=
  ["id", "company", "role", "location", "date_applied", "status", "source",
   "salary", "notes", "last_updated"]

/-- Cells csv.writer produces for one row: the integer id is rendered in
decimal and a NULL (Python None) is written as the empty string. -/
def rowToCells (r : Row) : List String :=
  [toString r.id, r.company.getD "", r.role.getD "", r.location.getD "",
   r.date_applied.getD "", r.status.getD "", r.source.getD "",
   r.salary.getD "", r.notes.getD "", r.last_updated.getD ""]

structure ExportOut where
  csvRows : Option (List (List String))
  closed : Bool
deriving DecidableEq

/-- Embedding of export_csv: fetch all rows ordered, close the
connection, and if there are no rows report nothing to export (none),
otherwise produce the header row followed by one cell row per record.
The connection is closed before the emptiness check, on every path. -/
def exportCsv (db : DB) : ExportOut :=
  ⟨if db.rows.isEmpty then none
   else some (headerRow :: (exportRows db).map rowToCells), true⟩

/-- One row-mapping as csv.DictReader hands it to import_csv: for each
column name, either a string or nothing (a key missing from the input
file reads as None). -/
structure RowMap where
  id : Option String
  company : Option String
  role : Option String
  location : Option String
  date_applied : Option String
  status : Option String
  source : Option String
  salary : Option String
  notes : Option String
  last_updated : Option String
deriving DecidableEq

/-- Row bound by the INSERT of import_csv for one input mapping: the
eight content columns are taken from the mapping with row.get (None
when missing), the id comes from the counter and last_updated is the import
time.  The id and last_updated keys of the mapping are never
read. -/
def rowOfMap (m : RowMap) (now : String) (n : Nat) : Row :=
  ⟨n, m.company, m.role, m.location, m.date_applied, m.status, m.source,
   m.salary, m.notes, some now⟩

/-- Check whether the INSERT of import_csv succeeds for this mapping:
company and role are NOT NULL columns, so binding None for either
raises sqlite3.IntegrityError; any string, including the empty one,
satisfies the constraint. -/
def rowValid (m : RowMap) : Bool := m.company.isSome && m.role.isSome

/-- Effect of one loop iteration of import_csv on the (uncommitted)
store state. -/
def importRow (m : RowMap) (now : String) (db : DB) : DB :=
  ⟨db.rows ++ [rowOfMap m now db.nextId], db.nextId + 1⟩

/-- Insert loop of import_csv: rows are inserted in file order; the
first row violating the NOT NULL constraint raises, aborting the loop
with none. -/
def importLoop : List RowMap → String → DB → Option DB
  | [], _, db => some db
  | m :: t, now, db =>
    if rowValid m then importLoop t now (importRow m now db) else none

structure ImportOut where
  ok : Bool
  db : DB
  closed : Bool
deriving DecidableEq

/-- Embedding of import_csv: run the insert loop, and only after the
whole loop commit and close.  If an insert raises, the exception
propagates before conn.commit(), so no inserted row is persisted (the
open transaction is rolled back) and conn.close() is never reached. -/
def importCsv (rs : List RowMap) (now : String) (db : DB) : ImportOut :=
  match importLoop rs now db with
  | some db2 => ⟨true, db2, true⟩
  | none => ⟨false, db, false⟩

structure DeleteOut where
  db : DB
  closed : Bool
deriving DecidableEq

/-- Embedding of delete_application: DELETE by id, commit, close.  A
missing id simply deletes nothing. -/
def deleteApplication (id : Nat) (db : DB) : DeleteOut :=
  ⟨⟨db.rows.filter (fun r => !(r.id == id)), db.nextId⟩, true⟩

/-- Normalisation sending a falsy update field (absent or empty string)
to absent; truthy fields are untouched. -/
def norm1 (v : Option String) : Option String := if truthy v then v else none

/-- Update fields with every falsy field replaced by absent. -/
def normEmpty (f : UpdateFields) : UpdateFields :=
  ⟨norm1 f.company, norm1 f.role, norm1 f.location, norm1 f.date,
   norm1 f.status, norm1 f.source, norm1 f.salary, norm1 f.notes⟩

lemma norm1_of_truthy {v : Option String} (h : truthy v = true) : norm1 v = v := by
  simp [norm1, h]

lemma norm1_of_falsy {v : Option String} (h : truthy v = false) : norm1 v = none := by
  simp [norm1, h]

lemma truthy_norm1 (v : Option String) : truthy (norm1 v) = truthy v := by
  cases h : truthy v with
  | true => rw [norm1_of_truthy h]; exact h
  | false => rw [norm1_of_falsy h]; rfl

lemma ite_norm1 (v w : Option String) :
    (if truthy (norm1 v) then norm1 v else w) = (if truthy v then v else w) := by
  cases h : truthy v with
  | true => rw [norm1_of_truthy h, h]
  | false => rw [norm1_of_falsy h]; simp [truthy]

lemma hasUpdates_normEmpty (f : UpdateFields) :
    hasUpdates (normEmpty f) = hasUpdates f := by
  simp [hasUpdates, normEmpty, truthy_norm1]

lemma applyUpd_normEmpty (f : UpdateFields) (now : String) (r : Row) :
    applyUpd (normEmpty f) now r = applyUpd f now r := by
  simp [applyUpd, normEmpty, ite_norm1]

/-- C1 (amended): add_application performs no validation at all.  Every
add invocation whose company and role flags are present, even with
empty or whitespace values, inserts exactly one new row at the next id
and bumps the id counter; no invocation fails. -/
theorem c1_add_always_inserts (a : AddArgs) (now : String) (db : DB) :
    (addApplication a now db).db.rows = db.rows ++ [newRowOfArgs a now db.nextId] ∧
    (addApplication a now db).db.nextId = db.nextId + 1 :=
  ⟨rfl, rfl⟩

/-- C1 counterexample: an add invocation with empty company and role
does not fail and does persist a record, contradicting the claim that
it fails with ValidationError and persists nothing. -/
theorem c1_counterexample :
    ((addApplication ⟨"", "", "", "", defaultStatus, "", "", ""⟩ "T" emptyDB).db.rows.map
        (fun r => r.company) = [some ""]) ∧
    (addApplication ⟨"", "", "", "", defaultStatus, "", "", ""⟩ "T" emptyDB).db.rows.length =
      emptyDB.rows.length + 1 := by
  constructor <;> rfl

/-- C2: an update field supplied as the empty string is skipped exactly
as if it were absent, and when every supplied field is empty or absent
the operation on an existing id reports no changes and leaves the store
(hence last_updated and every other column of the target record)
untouched. -/
theorem c2_update_empty_fields (id : Nat) (f : UpdateFields) (now : String) (db : DB) :
    updateApplication id f now db = updateApplication id (normEmpty f) now db ∧
    (hasUpdates f = false → (db.rows.find? (fun r => r.id == id)).isSome = true →
      updateApplication id f now db = ⟨UpdResult.noChanges, db, false⟩) := by
  constructor
  · unfold updateApplication
    rw [hasUpdates_normEmpty]
    cases db.rows.find? (fun r => r.id == id) with
    | none => rfl
    | some r =>
      cases h : hasUpdates f
      · simp
      · simp [applyUpd_normEmpty]
  · intro hU hex
    unfold updateApplication
    cases hf : db.rows.find? (fun r => r.id == id) with
    | none => rw [hf] at hex; simp at hex
    | some r => rw [hU]; simp

/-- Concrete one-row store used by several witnesses. -/
def dbW : DB :=
  ⟨[⟨1, some "A", some "B", some "", some "", some "applied", some "", some "",
     some "", some "1"⟩], 2⟩

/-- C2 witness: an update of an existing record supplying only empty
strings reports no changes and leaves the store untouched. -/
theorem c2_witness :
    updateApplication 1 ⟨some "", some "", none, none, some "", none, none, none⟩ "T" dbW =
      ⟨UpdResult.noChanges, dbW, false⟩ :=
  (c2_update_empty_fields 1 ⟨some "", some "", none, none, some "", none, none, none⟩
    "T" dbW).2 (by decide) (by decide)

/-- C4: an update addressed to an id held by no record reports not
found and leaves the store completely unchanged. -/
theorem c4_update_missing_id (id : Nat) (f : UpdateFields) (now : String) (db : DB)
    (h : ∀ r ∈ db.rows, r.id ≠ id) :
    updateApplication id f now db = ⟨UpdResult.notFound, db, false⟩ := by
  have hf : db.rows.find? (fun r => r.id == id) = none := by
    rw [List.find?_eq_none]
    intro r hr
    simpa using h r hr
  unfold updateApplication
  rw [hf]

/-- C4 witness: updating id 5 in a store holding only id 1 reports not
found and changes nothing. -/
theorem c4_witness :
    updateApplication 5 ⟨none, none, none, none, some "x", none, none, none⟩ "T" dbW =
      ⟨UpdResult.notFound, dbW, false⟩ :=
  c4_update_missing_id 5 ⟨none, none, none, none, some "x", none, none, none⟩ "T" dbW
    (by decide)

lemma importLoop_eq_none (rs : List RowMap) :
    ∀ (now : String) (db : DB) (m : RowMap), m ∈ rs → rowValid m = false →
      importLoop rs now db = none := by
  induction rs with
  | nil => intro _ _ m hm _; simp at hm
  | cons a t ih =>
    intro now db m hm hv
    rcases List.mem_cons.mp hm with rfl | hmem
    · simp [importLoop, hv]
    · unfold importLoop
      cases hva : rowValid a
      · simp
      · simpa using ih now (importRow a now db) m hmem hv

/-- C10: import commits only after the whole insert loop, so an input
containing any row that violates the NOT NULL constraint on company or
role (a missing column read as None) makes the whole import fail with
no row persisted, the store left exactly as before the call, and the
connection not closed. -/
theorem c10_import_all_or_nothing (rs : List RowMap) (now : String) (db : DB) (m : RowMap)
    (hm : m ∈ rs) (hv : rowValid m = false) :
    importCsv rs now db = ⟨false, db, false⟩ := by
  unfold importCsv
  rw [importLoop_eq_none rs now db m hm hv]

/-- Input mapping with all content columns present. -/
def mValid : RowMap :=
  ⟨none, some "A", some "B", none, none, none, none, none, none, none⟩

/-- Input mapping whose company column is missing entirely. -/
def mNoCompany : RowMap :=
  ⟨none, none, some "B", none, none, none, none, none, none, none⟩

/-- C10 witness: importing a valid row followed by a row with no
company column persists nothing, not even the earlier valid row. -/
theorem c10_witness :
    importCsv [mValid, mNoCompany] "T" emptyDB = ⟨false, emptyDB, false⟩ :=
  c10_import_all_or_nothing [mValid, mNoCompany] "T" emptyDB mNoCompany
    (by decide) (by decide)

/-- C9 (amended): add, list, stats, export and delete close the store
connection on every path, and so do the success paths of update and import;
but the early returns of update (unknown id, or no truthy
field) and the failing path of import (an insert raising before the
commit) return without closing the connection they opened. -/
theorem c9_connection_closing (a : AddArgs) (st co : Option String) (i k : Nat)
    (f : UpdateFields) (rs : List RowMap) (now : String) (db : DB) :
    (addApplication a now db).closed = true ∧
    (listApplications st co db).closed = true ∧
    (statsOp db).closed = true ∧
    (exportCsv db).closed = true ∧
    (deleteApplication k db).closed = true ∧
    ((updateApplication i f now db).closed = true ↔
      (updateApplication i f now db).res = UpdResult.updated) ∧
    (importCsv rs now db).closed = (importCsv rs now db).ok := by
  refine ⟨rfl, rfl, rfl, rfl, rfl, ?_, ?_⟩
  · unfold updateApplication
    cases db.rows.find? (fun r => r.id == i) with
    | none => simp
    | some r =>
      cases h : hasUpdates f
      · simp
      · simp
  · unfold importCsv
    cases importLoop rs now db with
    | none => rfl
    | some d => rfl

/-- C9 counterexample: the not-found early return of update leaves the
connection it opened unclosed, contradicting the claim that every
operation closes the connection on every exit path. -/
theorem c9_counterexample :
    (updateApplication 1 ⟨none, none, none, none, none, none, none, none⟩ "T" emptyDB).closed
      = false := rfl

/-- Update fields of an invocation supplying only the status flag. -/
def statusOnly (X : String) : UpdateFields :=
  ⟨none, none, none, none, some X, none, none, none⟩

/-- C3: updating an existing record with a non-empty status rewrites
exactly the status and last_updated columns of the rows holding that
id and leaves every other column and every other record byte-identical;
provided the clock has advanced past the stored timestamp, the new
last_updated is strictly later than the old one. -/
theorem c3_update_status_frame (id : Nat) (X now : String) (db : DB) (r : Row) (t : String)
    (hX : X ≠ "") (hr : db.rows.find? (fun s => s.id == id) = some r)
    (ht : r.last_updated = some t) (hlt : t < now) :
    (updateApplication id (statusOnly X) now db).res = UpdResult.updated ∧
    (updateApplication id (statusOnly X) now db).db.rows =
      db.rows.map (fun s => if s.id == id then
        { s with status := some X, last_updated := some now } else s) ∧
    (updateApplication id (statusOnly X) now db).db.nextId = db.nextId ∧
    ∀ u ∈ (updateApplication id (statusOnly X) now db).db.rows, u.id = id →
      ∃ v, u.last_updated = some v ∧ t < v := by
  have hH : hasUpdates (statusOnly X) = true := by
    simp [hasUpdates, statusOnly, truthy, hX]
  have happ : ∀ s, applyUpd (statusOnly X) now s =
      { s with status := some X, last_updated := some now } := by
    intro s
    simp [applyUpd, statusOnly, truthy, hX]
  unfold updateApplication
  rw [hr, hH]
  refine ⟨rfl, ?_, rfl, ?_⟩
  · simp only [if_true, happ]
  · intro u hu huid
    simp only [if_true] at hu
    rcases List.mem_map.mp hu with ⟨s, hs, hu2⟩
    by_cases h2 : (s.id == id) = true
    · rw [if_pos h2, happ s] at hu2
      exact ⟨now, by rw [← hu2], hlt⟩
    · rw [if_neg h2] at hu2
      rw [← hu2] at huid
      simp at h2
      exact absurd huid h2

/-- C3 witness: updating the status of record 1 in a one-row store. -/
theorem c3_witness :
    (updateApplication 1 (statusOnly "x") "2" dbW).res = UpdResult.updated ∧
    (updateApplication 1 (statusOnly "x") "2" dbW).db.rows =
      dbW.rows.map (fun s => if s.id == 1 then
        { s with status := some "x", last_updated := some "2" } else s) ∧
    (updateApplication 1 (statusOnly "x") "2" dbW).db.nextId = dbW.nextId ∧
    ∀ u ∈ (updateApplication 1 (statusOnly "x") "2" dbW).db.rows, u.id = 1 →
      ∃ v, u.last_updated = some v ∧ "1" < v :=
  c3_update_status_frame 1 "x" "2" dbW
    ⟨1, some "A", some "B", some "", some "", some "applied", some "", some "",
     some "", some "1"⟩
    "1" (by decide) (by decide) (by decide)
    (String.lt_iff_toList_lt.mpr (by decide))

/-- Rows created by the insert loop of import_csv for the given input
mappings, starting at the given id counter value. -/
def buildRows : List RowMap → String → Nat → List Row
  | [], _, _ => []
  | m :: t, now, n => rowOfMap m now n :: buildRows t now (n + 1)

lemma importLoop_ok (rs : List RowMap) :
    ∀ (now : String) (db : DB), rs.all rowValid = true →
      importLoop rs now db =
        some ⟨db.rows ++ buildRows rs now db.nextId, db.nextId + rs.length⟩ := by
  induction rs with
  | nil => intro now db _; simp [importLoop, buildRows]
  | cons m t ih =>
    intro now db hall
    rw [List.all_cons, Bool.and_eq_true] at hall
    unfold importLoop
    rw [hall.1]
    simp only [if_true]
    rw [ih now (importRow m now db) hall.2]
    simp [importRow, buildRows, DB.mk.injEq]
    omega

/-- Mapping with the id and last_updated keys removed. -/
def scrubIdLU (m : RowMap) : RowMap := { m with id := none, last_updated := none }

lemma importLoop_scrub (rs : List RowMap) : ∀ (now : String) (db : DB),
    importLoop (rs.map scrubIdLU) now db = importLoop rs now db := by
  induction rs with
  | nil => intro _ _; rfl
  | cons m t ih =>
    intro now db
    simp only [List.map_cons]
    unfold importLoop
    show (if rowValid m then importLoop (t.map scrubIdLU) now (importRow m now db) else none)
      = (if rowValid m then importLoop t now (importRow m now db) else none)
    cases hv : rowValid m with
    | false => simp
    | true => simp only [if_true]; exact ih now (importRow m now db)

/-- C6 (amended): import creates one new record per input row, with a
newly assigned id from the counter and last_updated set to the import
time; the id and last_updated columns of the input are ignored; rows
whose company and role columns are present, even as empty strings, are
inserted without the validation create would apply; but a column
missing from an input row is stored as NULL, not as the defaults create
uses (in particular a missing status is NULL, not applied). -/
theorem c6_import_inserts_rows (rs : List RowMap) (now : String) (db : DB)
    (h : rs.all rowValid = true) :
    (importCsv rs now db).ok = true ∧
    (importCsv rs now db).db.rows = db.rows ++ buildRows rs now db.nextId ∧
    (importCsv rs now db).db.nextId = db.nextId + rs.length ∧
    importCsv rs now db = importCsv (rs.map scrubIdLU) now db := by
  have hok := importLoop_ok rs now db h
  refine ⟨?_, ?_, ?_, ?_⟩
  · simp [importCsv, hok]
  · simp [importCsv, hok]
  · simp [importCsv, hok]
  · unfold importCsv
    rw [importLoop_scrub rs now db]

/-- C6 witness: importing one mapping that has company and role but no
other columns. -/
theorem c6_witness :
    (importCsv [mValid] "T" emptyDB).ok = true ∧
    (importCsv [mValid] "T" emptyDB).db.rows =
      emptyDB.rows ++ buildRows [mValid] "T" emptyDB.nextId ∧
    (importCsv [mValid] "T" emptyDB).db.nextId = emptyDB.nextId + [mValid].length ∧
    importCsv [mValid] "T" emptyDB = importCsv ([mValid].map scrubIdLU) "T" emptyDB :=
  c6_import_inserts_rows [mValid] "T" emptyDB (by decide)

/-- C6 counterexample: a row imported without a status column is stored
with a NULL status, while a create invocation with the status flag
absent stores the argparse default applied; so missing input columns do
not default to the values create uses. -/
theorem c6_counterexample :
    ((importCsv [mValid] "T" emptyDB).db.rows.map (fun r => r.status) = [none]) ∧
    ((addApplication ⟨"A", "B", "", "", defaultStatus, "", "", ""⟩ "T" emptyDB).db.rows.map
        (fun r => r.status) = [some defaultStatus]) ∧
    (none : Option String) ≠ some defaultStatus :=
  ⟨rfl, rfl, by decide⟩

/-- Record filter as the claim words it: status equal to the filter
when one is given, company containing the filter case-insensitively
when one is given, absent filters imposing no constraint. -/
def rowMatchesSpec (st co : Option String) (r : Row) : Bool :=
  (match st with
   | none => true
   | some s => r.status == some s) &&
  (match co with
   | none => true
   | some c =>
     match r.company with
     | some cs => containsCI cs c
     | none => false)

/-- Sort key the claim describes: the stored date string, with a
missing date compared as the literal empty string. -/
def dKey (r : Row) : String := r.date_applied.getD ""

lemma likeMatch_pct_iff (p : List Char) (s : List Char) :
    likeMatch ('%' :: p) s = true ↔ ∃ t, t <:+ s ∧ likeMatch p t = true := by
  simp [likeMatch, List.any_eq_true, List.mem_tails]

lemma likeMatch_plain : ∀ (p : List Char), (∀ ch ∈ p, ch ≠ '%' ∧ ch ≠ '_') →
    ∀ s, likeMatch (p ++ ['%']) s = true ↔ p <+: s := by
  intro p
  induction p with
  | nil =>
    intro _ s
    have h1 : likeMatch ['%'] s = true :=
      (likeMatch_pct_iff [] s).mpr ⟨[], List.nil_suffix, rfl⟩
    simp [h1, List.nil_prefix]
  | cons c p2 ih =>
    intro hp s
    have hc := hp c (List.mem_cons_self _ _)
    have hp2 : ∀ d ∈ p2, d ≠ '%' ∧ d ≠ '_' := fun d hd => hp d (List.mem_cons_of_mem _ hd)
    cases s with
    | nil =>
      simp only [List.cons_append, likeMatch, if_neg hc.1]
      simp [List.prefix_nil]
    | cons d t =>
      simp only [List.cons_append, likeMatch, if_neg hc.1, if_neg hc.2, List.append_eq]
      rw [Bool.and_eq_true, ih hp2 t, List.cons_prefix_cons]
      simp

lemma companyLike_eq_containsCI (cs c : String)
    (h : ∀ ch ∈ foldChars c, ch ≠ '%' ∧ ch ≠ '_') :
    companyLike cs c = containsCI cs c := by
  have hiff : likeMatch ('%' :: (foldChars c ++ ['%'])) (foldChars cs) = true ↔
      foldChars c <:+: foldChars cs := by
    rw [likeMatch_pct_iff]
    constructor
    · rintro ⟨t, hts, hm⟩
      exact List.infix_iff_prefix_suffix.mpr ⟨t, (likeMatch_plain _ h t).mp hm, hts⟩
    · intro hinf
      rcases List.infix_iff_prefix_suffix.mp hinf with ⟨t, hpt, hts⟩
      exact ⟨t, hts, (likeMatch_plain _ h t).mpr hpt⟩
  unfold companyLike containsCI
  by_cases hI : foldChars c <:+: foldChars cs
  · rw [hiff.mpr hI]
    exact (decide_eq_true hI).symm
  · have h2 : likeMatch ('%' :: (foldChars c ++ ['%'])) (foldChars cs) = false :=
      Bool.not_eq_true _ |>.mp (fun hh => hI (hiff.mp hh))
    rw [h2, decide_eq_false hI]

lemma rowMatches_eq_spec (st co : Option String) (r : Row)
    (hst : ∀ s, st = some s → s ≠ "")
    (hco : ∀ c, co = some c → c ≠ "" ∧ ∀ ch ∈ foldChars c, ch ≠ '%' ∧ ch ≠ '_') :
    rowMatches st co r = rowMatchesSpec st co r := by
  unfold rowMatches rowMatchesSpec
  congr 1
  · cases st with
    | none => rfl
    | some s =>
      have h := hst s rfl
      simp [h]
  · cases co with
    | none => rfl
    | some c =>
      have h := hco c rfl
      simp only [h.1, beq_iff_eq, if_neg h.1]
      cases r.company with
      | none => rfl
      | some cs => exact companyLike_eq_containsCI cs c h.2

lemma empty_le_string (s : String) : "" ≤ s :=
  String.le_iff_toList_le.mpr List.nil_le

lemma sqlGE_getD {x y : Option String} (h : sqlGE x y = true) : y.getD "" ≤ x.getD "" := by
  cases y with
  | none => exact empty_le_string _
  | some sb =>
    cases x with
    | none => simp [sqlGE] at h
    | some sa =>
      simp only [Option.getD_some]
      simpa [sqlGE] using h

lemma rowLE_dKey {a b : Row} (h : rowLE a b) : dKey b ≤ dKey a :=
  sqlGE_getD h

/-- C5 (amended): for a company filter free of the LIKE wildcards
percent and underscore (case folding leaves both unchanged), list
returns exactly the stored records passing the claim filter (status
exact match and case-insensitive company containment, with absent
filters unconstraining) as a permutation of the filtered store, and its
output is sorted by the date string descending with a missing date
compared as the empty string.  For a filter holding a wildcard, LIKE
semantics and substring containment part ways. -/
theorem c5_list_filter_sort (st co : Option String) (db : DB)
    (hst : ∀ s, st = some s → s ≠ "")
    (hco : ∀ c, co = some c → c ≠ "" ∧ ∀ ch ∈ foldChars c, ch ≠ '%' ∧ ch ≠ '_') :
    ((listApplications st co db).rows).Perm (db.rows.filter (rowMatchesSpec st co)) ∧
    ((listApplications st co db).rows).Pairwise (fun a b => dKey b ≤ dKey a) := by
  have hfil : db.rows.filter (rowMatches st co) = db.rows.filter (rowMatchesSpec st co) :=
    List.filter_congr (fun r _ => rowMatches_eq_spec st co r hst hco)
  constructor
  · exact hfil ▸ List.perm_insertionSort rowLE (db.rows.filter (rowMatches st co))
  · exact List.Pairwise.imp (fun hab => rowLE_dKey hab)
      (List.sorted_insertionSort rowLE (db.rows.filter (rowMatches st co)))

/-- Concrete two-row store for the list witness. -/
def dbL : DB :=
  ⟨[⟨1, some "Acme", some "SWE", some "", some "2025-01-01", some "applied", some "",
     some "", some "", some "T"⟩,
    ⟨2, some "Beta", some "PM", some "", some "2025-02-02", some "rejected", some "",
     some "", some "", some "T"⟩], 3⟩

/-- C5 witness: listing with both filters given on a concrete store. -/
theorem c5_witness :
    ((listApplications (some "applied") (some "a") dbL).rows).Perm
      (dbL.rows.filter (rowMatchesSpec (some "applied") (some "a"))) ∧
    ((listApplications (some "applied") (some "a") dbL).rows).Pairwise
      (fun a b => dKey b ≤ dKey a) :=
  c5_list_filter_sort (some "applied") (some "a") dbL
    (by intro s h; cases h; decide) (by intro c h; cases h; decide)

/-- One-row store whose company holds no percent or underscore. -/
def dbX : DB :=
  ⟨[⟨1, some "Acme", some "SWE", some "", some "", some "applied", some "",
     some "", some "", some "T"⟩], 2⟩

/-- C5 counterexample: with the company filter percent, a LIKE
wildcard, the program builds the pattern of three percents, which
matches every non-NULL company, so the Acme row is returned; the
claimed case-insensitive-substring reading rejects that row, since acme
does not contain a literal percent.  So list output and the claimed
filtered store differ at this input. -/
theorem c5_counterexample :
    ¬ (((listApplications none (some "%") dbX).rows).Perm
        (dbX.rows.filter (rowMatchesSpec none (some "%")))) := by decide

/-- Mapping csv.DictReader yields when reading back the cells that
export_csv wrote for a row: every header column is present, and a NULL
column was written by csv.writer as the empty string. -/
def rowToMap (r : Row) : RowMap :=
  ⟨some (toString r.id), some (r.company.getD ""), some (r.role.getD ""),
   some (r.location.getD ""), some (r.date_applied.getD ""), some (r.status.getD ""),
   some (r.source.getD ""), some (r.salary.getD ""), some (r.notes.getD ""),
   some (r.last_updated.getD "")⟩

/-- Row-mappings obtained by reading an exported file back in. -/
def exportMaps (db : DB) : List RowMap := (exportRows db).map rowToMap

/-- Content tuple of a record with NULL read as the empty string, the
equivalence class the export file can represent. -/
def normTuple (r : Row) :
    String × String × String × String × String × String × String × String :=
  (r.company.getD "", r.role.getD "", r.location.getD "", r.date_applied.getD "",
   r.status.getD "", r.source.getD "", r.salary.getD "", r.notes.getD "")

/-- Exact content tuple of a record, NULL kept distinct from the empty
string. -/
def contentTuple (r : Row) :
    Option String × Option String × Option String × Option String ×
    Option String × Option String × Option String × Option String :=
  (r.company, r.role, r.location, r.date_applied, r.status, r.source, r.salary, r.notes)

lemma buildRows_map_normTuple (l : List Row) : ∀ (now : String) (n : Nat),
    (buildRows (l.map rowToMap) now n).map normTuple = l.map normTuple := by
  induction l with
  | nil => intro _ _; rfl
  | cons r t ih =>
    intro now n
    simp only [List.map_cons, buildRows]
    rw [ih now (n + 1)]
    rfl

lemma exportMaps_all_valid (db : DB) : (exportMaps db).all rowValid = true := by
  unfold exportMaps
  rw [List.all_eq_true]
  intro m hm
  rcases List.mem_map.mp hm with ⟨r, _, rfl⟩
  rfl

/-- C7 (amended): exporting a non-empty store and importing the file
into a fresh empty store reproduces the multiset of content tuples up
to reading NULL back as the empty string (ids and last_updated differ);
when no stored field is NULL, for example for any store populated only
through add, the tuples are reproduced exactly. -/
theorem c7_roundtrip (db : DB) (now : String) (h : db.rows ≠ []) :
    (importCsv (exportMaps db) now emptyDB).ok = true ∧
    ((importCsv (exportMaps db) now emptyDB).db.rows.map normTuple).Perm
      (db.rows.map normTuple) := by
  have hok := importLoop_ok (exportMaps db) now emptyDB (exportMaps_all_valid db)
  constructor
  · simp [importCsv, hok]
  · have hrows : (importCsv (exportMaps db) now emptyDB).db.rows =
        buildRows (exportMaps db) now 1 := by
      unfold importCsv
      rw [hok]
      simp [emptyDB]
    rw [hrows]
    unfold exportMaps
    rw [buildRows_map_normTuple (exportRows db) now 1]
    exact (List.perm_insertionSort rowLE db.rows).map normTuple

/-- C7 witness: round-tripping a concrete one-row store. -/
theorem c7_witness :
    (importCsv (exportMaps dbW) "T" emptyDB).ok = true ∧
    ((importCsv (exportMaps dbW) "T" emptyDB).db.rows.map normTuple).Perm
      (dbW.rows.map normTuple) :=
  c7_roundtrip dbW "T" (by decide)

/-- Store holding one record with NULL optional columns, as produced by importing
a file whose optional columns are missing. -/
def dbNull : DB := (importCsv [mValid] "T0" emptyDB).db

/-- C7 counterexample: for a store holding a NULL field, the round trip
does not reproduce the multiset of exact content tuples, because the
NULL location is read back as the empty string; this refutes the claim
that only ids and last_updated may differ. -/
theorem c7_counterexample :
    ¬ (((importCsv (exportMaps dbNull) "T1" emptyDB).db.rows.map contentTuple).Perm
        (dbNull.rows.map contentTuple)) := by
  intro hp
  rw [show (importCsv (exportMaps dbNull) "T1" emptyDB).db.rows.map contentTuple =
        [(some "A", some "B", some "", some "", some "", some "", some "", some "")]
      from by decide,
      show dbNull.rows.map contentTuple =
        [(some "A", some "B", none, none, none, none, none, none)]
      from by decide] at hp
  have h2 := List.perm_singleton.mp hp
  simp at h2

/-- One store operation of the command surface that can touch rows or
assign ids. -/
inductive Op where
  | add (a : AddArgs) (now : String)
  | imp (rs : List RowMap) (now : String)
  | del (id : Nat)
  | upd (id : Nat) (f : UpdateFields) (now : String)

/-- Store state after one operation. -/
def applyOp : Op → DB → DB
  | Op.add a now, db => (addApplication a now db).db
  | Op.imp rs now, db => (importCsv rs now db).db
  | Op.del i, db => (deleteApplication i db).db
  | Op.upd i f now, db => (updateApplication i f now db).db

/-- Store state after a sequence of operations. -/
def applyOps : List Op → DB → DB
  | [], db => db
  | op :: t, db => applyOps t (applyOp op db)

/-- Consecutive ids starting at n. -/
def idsFrom : Nat → Nat → List Nat
  | _, 0 => []
  | n, k + 1 => n :: idsFrom (n + 1) k

/-- Ids assigned by one operation: add assigns the counter value, a
successful import assigns one consecutive id per input row, a failed import,
delete and update assign none. -/
def newIds : Op → DB → List Nat
  | Op.add _ _, db => [db.nextId]
  | Op.imp rs _, db => if rs.all rowValid then idsFrom db.nextId rs.length else []
  | Op.del _, _ => []
  | Op.upd _ _ _, _ => []

/-- All ids assigned over a sequence of operations, in the order they
were assigned. -/
def assignedIds : List Op → DB → List Nat
  | [], _ => []
  | op :: t, db => newIds op db ++ assignedIds t (applyOp op db)

lemma mem_idsFrom : ∀ (k n i : Nat), i ∈ idsFrom n k → n ≤ i ∧ i < n + k := by
  intro k
  induction k with
  | zero => intro n i h; simp [idsFrom] at h
  | succ k ih =>
    intro n i h
    simp only [idsFrom] at h
    rcases List.mem_cons.mp h with rfl | h2
    · omega
    · have := ih (n + 1) i h2
      omega

lemma pairwise_idsFrom : ∀ (k n : Nat), (idsFrom n k).Pairwise (· < ·) := by
  intro k
  induction k with
  | zero => intro n; simp [idsFrom]
  | succ k ih =>
    intro n
    simp only [idsFrom]
    refine List.Pairwise.cons ?_ (ih (n + 1))
    intro i hi
    have := mem_idsFrom k (n + 1) i hi
    omega

lemma importLoop_nextId (rs : List RowMap) : ∀ (now : String) (db d : DB),
    importLoop rs now db = some d → db.nextId ≤ d.nextId := by
  induction rs with
  | nil =>
    intro now db d h
    simp [importLoop] at h
    subst h
    exact le_refl _
  | cons m t ih =>
    intro now db d h
    unfold importLoop at h
    cases hv : rowValid m
    · rw [hv] at h; simp at h
    · rw [hv] at h
      simp at h
      have := ih now (importRow m now db) d h
      simp [importRow] at this
      omega

lemma importLoop_some_valid (rs : List RowMap) : ∀ (now : String) (db d : DB),
    importLoop rs now db = some d → rs.all rowValid = true := by
  induction rs with
  | nil => intro _ _ _ _; rfl
  | cons m t ih =>
    intro now db d h
    unfold importLoop at h
    cases hv : rowValid m
    · rw [hv] at h; simp at h
    · rw [hv] at h
      simp at h
      rw [List.all_cons, hv]
      simpa using ih now (importRow m now db) d h

lemma applyOp_nextId (op : Op) (db : DB) : db.nextId ≤ (applyOp op db).nextId := by
  cases op with
  | add a now => exact Nat.le_succ _
  | imp rs now =>
    show db.nextId ≤ (importCsv rs now db).db.nextId
    unfold importCsv
    cases h : importLoop rs now db with
    | none => exact le_refl _
    | some d => exact importLoop_nextId rs now db d h
  | del i => exact le_refl _
  | upd i f now =>
    show db.nextId ≤ (updateApplication i f now db).db.nextId
    unfold updateApplication
    cases db.rows.find? (fun r => r.id == i) with
    | none => exact le_refl _
    | some r =>
      cases h : hasUpdates f <;> simp [h]

lemma newIds_bounds (op : Op) (db : DB) :
    ∀ i ∈ newIds op db, db.nextId ≤ i ∧ i < (applyOp op db).nextId := by
  cases op with
  | add a now =>
    intro i hi
    simp [newIds] at hi
    subst hi
    exact ⟨le_refl _, Nat.lt_succ_self _⟩
  | imp rs now =>
    intro i hi
    simp only [newIds] at hi
    cases hall : rs.all rowValid
    · rw [hall] at hi; simp at hi
    · rw [hall] at hi
      simp at hi
      have hb := mem_idsFrom rs.length db.nextId i hi
      have happ : applyOp (Op.imp rs now) db =
          ⟨db.rows ++ buildRows rs now db.nextId, db.nextId + rs.length⟩ := by
        show (importCsv rs now db).db = _
        unfold importCsv
        rw [importLoop_ok rs now db hall]
      rw [happ]
      exact ⟨hb.1, hb.2⟩
  | del i2 => intro i hi; simp [newIds] at hi
  | upd i2 f now => intro i hi; simp [newIds] at hi

lemma newIds_pairwise (op : Op) (db : DB) : (newIds op db).Pairwise (· < ·) := by
  cases op with
  | add a now => simp [newIds]
  | imp rs now =>
    simp only [newIds]
    cases hall : rs.all rowValid
    · simp
    · simpa using pairwise_idsFrom rs.length db.nextId
  | del i2 => simp [newIds]
  | upd i2 f now => simp [newIds]

lemma assignedIds_lb (ops : List Op) : ∀ (db : DB) (i : Nat),
    i ∈ assignedIds ops db → db.nextId ≤ i := by
  induction ops with
  | nil => intro db i h; simp [assignedIds] at h
  | cons op t ih =>
    intro db i h
    simp only [assignedIds] at h
    rcases List.mem_append.mp h with h1 | h2
    · exact (newIds_bounds op db i h1).1
    · exact le_trans (applyOp_nextId op db) (ih (applyOp op db) i h2)

lemma assignedIds_pairwise (ops : List Op) : ∀ db : DB,
    (assignedIds ops db).Pairwise (· < ·) := by
  induction ops with
  | nil => intro db; simp [assignedIds]
  | cons op t ih =>
    intro db
    simp only [assignedIds]
    rw [List.pairwise_append]
    refine ⟨newIds_pairwise op db, ih (applyOp op db), ?_⟩
    intro i hi j hj
    have h1 := (newIds_bounds op db i hi).2
    have h2 := assignedIds_lb t (applyOp op db) j hj
    omega

lemma mem_buildRows_id (rs : List RowMap) : ∀ (now : String) (n : Nat) (r : Row),
    r ∈ buildRows rs now n → r.id ∈ idsFrom n rs.length := by
  induction rs with
  | nil => intro _ _ r h; simp [buildRows] at h
  | cons m t ih =>
    intro now n r h
    simp only [buildRows] at h
    rcases List.mem_cons.mp h with rfl | h2
    · simp [idsFrom, rowOfMap]
    · simp only [idsFrom]
      exact List.mem_cons.mpr (Or.inr (ih now (n + 1) r h2))

lemma rows_ids_applyOp (op : Op) (db : DB) :
    ∀ r ∈ (applyOp op db).rows, r.id ∈ newIds op db ∨ ∃ s ∈ db.rows, s.id = r.id := by
  cases op with
  | add a now =>
    intro r hr
    simp only [applyOp, addApplication] at hr
    rcases List.mem_append.mp hr with h1 | h1
    · right; exact ⟨r, h1, rfl⟩
    · left
      rcases List.mem_singleton.mp h1 with rfl
      simp [newIds, newRowOfArgs]
  | imp rs now =>
    intro r hr
    show r.id ∈ newIds (Op.imp rs now) db ∨ _
    have hr2 : r ∈ (importCsv rs now db).db.rows := hr
    unfold importCsv at hr2
    cases hL : importLoop rs now db with
    | none =>
      rw [hL] at hr2
      right; exact ⟨r, hr2, rfl⟩
    | some d =>
      rw [hL] at hr2
      have hall := importLoop_some_valid rs now db d hL
      rw [importLoop_ok rs now db hall] at hL
      have hd : d = ⟨db.rows ++ buildRows rs now db.nextId, db.nextId + rs.length⟩ :=
        (Option.some.injEq _ _).mp hL.symm
      subst hd
      rcases List.mem_append.mp hr2 with h1 | h1
      · right; exact ⟨r, h1, rfl⟩
      · left
        simp only [newIds]
        rw [hall]
        simpa using mem_buildRows_id rs now db.nextId r h1
  | del i2 =>
    intro r hr
    simp only [applyOp, deleteApplication] at hr
    right
    exact ⟨r, (List.mem_filter.mp hr).1, rfl⟩
  | upd i2 f now =>
    intro r hr
    have hr2 : r ∈ (updateApplication i2 f now db).db.rows := hr
    unfold updateApplication at hr2
    cases hf : db.rows.find? (fun s => s.id == i2) with
    | none =>
      rw [hf] at hr2
      right; exact ⟨r, hr2, rfl⟩
    | some s0 =>
      rw [hf] at hr2
      cases hU : hasUpdates f
      · rw [hU] at hr2
        simp at hr2
        right; exact ⟨r, hr2, rfl⟩
      · rw [hU] at hr2
        simp at hr2
        rcases hr2 with ⟨s, hs, hsr⟩
        right
        refine ⟨s, hs, ?_⟩
        by_cases h2 : s.id = i2
        · rw [if_pos h2] at hsr
          rw [← hsr]
          rfl
        · rw [if_neg h2] at hsr
          rw [hsr]

lemma rows_ids_applyOps (ops : List Op) : ∀ (db : DB), ∀ r ∈ (applyOps ops db).rows,
    r.id ∈ assignedIds ops db ∨ ∃ s ∈ db.rows, s.id = r.id := by
  induction ops with
  | nil => intro db r hr; right; exact ⟨r, hr, rfl⟩
  | cons op t ih =>
    intro db r hr
    simp only [applyOps] at hr
    rcases ih (applyOp op db) r hr with h1 | ⟨s, hs, hsid⟩
    · left
      simp only [assignedIds]
      exact List.mem_append.mpr (Or.inr h1)
    · rcases rows_ids_applyOp op db s hs with h2 | ⟨u, hu, huid⟩
      · left
        simp only [assignedIds]
        exact List.mem_append.mpr (Or.inl (hsid ▸ h2))
      · right
        exact ⟨u, hu, huid.trans hsid⟩

/-- C8: over any sequence of operations on a store that started empty,
the ids assigned by add and import, taken in order of assignment, are
pairwise strictly increasing, so every new id is unique, exceeds every
id assigned earlier in the store lifetime, and is never reassigned
after a delete; and every id found in the final store is one that was
assigned by some operation, so no operation rewrites an id. -/
theorem c8_ids_monotone (ops : List Op) (r : Row)
    (hr : r ∈ (applyOps ops emptyDB).rows) :
    (assignedIds ops emptyDB).Pairwise (· < ·) ∧ r.id ∈ assignedIds ops emptyDB := by
  refine ⟨assignedIds_pairwise ops emptyDB, ?_⟩
  rcases rows_ids_applyOps ops emptyDB r hr with h | ⟨s, hs, _⟩
  · exact h
  · simp [emptyDB] at hs

/-- Arguments of the witness add operations. -/
def aW : AddArgs := ⟨"A", "B", "", "", "applied", "", "", ""⟩

/-- C8 witness: add, delete, add on an initially empty store; the row
created by the second add carries id 2, which was assigned after and
above the deleted id 1. -/
theorem c8_witness :
    (assignedIds [Op.add aW "T", Op.del 1, Op.add aW "U"] emptyDB).Pairwise (· < ·) ∧
    (newRowOfArgs aW "U" 2).id ∈ assignedIds [Op.add aW "T", Op.del 1, Op.add aW "U"] emptyDB :=
  c8_ids_monotone [Op.add aW "T", Op.del 1, Op.add aW "U"] (newRowOfArgs aW "U" 2)
    (by decide)
